import Mathlib

/-
Verification of the ride-optimization core of the stacktoodeep repository.

The Python sources are shallowly embedded as Lean definitions:
 - monetary amounts, distances and rates become exact rationals (ℚ);
   Python round(x, 2) becomes round2 (round half to even at 2 decimals);
 - timestamps become integers (minutes), so datetime comparison is
   integer comparison;
 - functions that raise ValueError become Option-valued (none = raise);
 - the Haversine distance (transcendental, real-valued) is kept as an
   explicit function parameter dist of any geometric routine, since the
   properties verified here do not depend on its values.
-/

namespace RideOpt

/-- Model of Python round-half-to-even restricted to one integer result. -/
def roundHalfEven (q : ℚ) : ℤ :=
  if q - ⌊q⌋ < 1/2 then ⌊q⌋
  else if 1/2 < q - ⌊q⌋ then ⌊q⌋ + 1
  else if ⌊q⌋ % 2 = 0 then ⌊q⌋ else ⌊q⌋ + 1

/-- Model of Python round(x, 2): banker rounding at two decimal places. -/
def round2 (q : ℚ) : ℚ := (roundHalfEven (q * 100) : ℚ) / 100

/-- Model of Python int(x): truncation toward zero. -/
def pyInt (q : ℚ) : ℤ := if q < 0 then -⌊-q⌋ else ⌊q⌋

/-- Model of Python max(l) for a nonempty list, with 0 for the empty list
(the sources always write max(l) if l else 0). -/
def listMax : List ℤ → ℤ
  | [] => 0
  | x :: xs => xs.foldl max x

/-- Geographic location (app/models/ride.py, class Location). -/
structure Location where
  latitude : ℚ
  longitude : ℚ
deriving DecidableEq

/-- Pickup time window (app/models/ride.py, class TimeWindow); timestamps
are modelled as integer minutes. -/
structure TimeWindow where
  earliest : ℤ
  preferred : ℤ
  latest : ℤ
deriving DecidableEq

/-- Ride request (app/models/ride.py, class RideRequest, hackathon-demo
variant used by the optimization core); the UUID id is modelled as ℕ. -/
structure RideRequest where
  id : ℕ
  pickup : Location
  dropoff : Location
  time_window : TimeWindow
  num_passengers : ℕ
deriving DecidableEq

/-- Stop kind: the type field of Stop is the string pickup or dropoff. -/
inductive StopType where
  | pickup : StopType
  | dropoff : StopType
deriving DecidableEq

/-- One stop of a vehicle route (app/models/route.py, class Stop). -/
structure Stop where
  ride_id : ℕ
  location : Location
  type : StopType
  time_window : TimeWindow
  num_passengers : ℕ
  sequence : ℕ
deriving DecidableEq

/-- A solved vehicle route (app/models/route.py, class VehicleRoute). -/
structure VehicleRoute where
  vehicle_id : ℕ
  stops : List Stop
  total_distance_km : ℚ
  total_duration_minutes : ℤ
  capacity_used : ℤ
  revenue : ℚ
  load_profile : List ℤ
deriving DecidableEq

/-- check_time_overlap from pooling.py lines 81-104: two windows overlap
iff the latest start is strictly before the earliest end. -/
def check_time_overlap (tw1 tw2 : TimeWindow) : Bool :=
  decide (max tw1.earliest tw2.earliest < min tw1.latest tw2.latest)

/-- BASE_FARE from pricing_engine.py line 25 (3.00). -/
def BASE_FARE : ℚ := 3

/-- PER_KM_RATE from pricing_engine.py line 26 (1.50). -/
def PER_KM_RATE : ℚ := 3/2

/-- PER_MINUTE_RATE from pricing_engine.py line 27 (0.30). -/
def PER_MINUTE_RATE : ℚ := 3/10

/-- PLATFORM_FEE_RATE from pricing_engine.py line 38 (0.15). -/
def PLATFORM_FEE_RATE : ℚ := 3/20

/-- POOL_DISCOUNTS dict lookup with default 0.40, pricing_engine.py
lines 30-35 together with the .get(riders_key, 0.40) at line 175. -/
def POOL_DISCOUNTS (riders : ℤ) : ℚ :=
  if riders = 1 then 0
  else if riders = 2 then 1/5
  else if riders = 3 then 3/10
  else if riders = 4 then 2/5
  else 2/5

/-- PricingEngine configuration fields (pricing_engine.py lines 70-89). -/
structure PricingEngine where
  base_fare : ℚ
  per_km_rate : ℚ
  per_minute_rate : ℚ
  platform_fee_rate : ℚ
deriving DecidableEq

/-- The engine built by PricingEngine() with the default constants. -/
def defaultPricingEngine : PricingEngine :=
  ⟨BASE_FARE, PER_KM_RATE, PER_MINUTE_RATE, PLATFORM_FEE_RATE⟩

/-- PricingEngine.calculate_base_price (pricing_engine.py lines 91-130);
none models the ValueError raised on negative inputs. -/
def PricingEngine.calculate_base_price (e : PricingEngine)
    (distance_km duration_minutes : ℚ) : Option ℚ :=
  if distance_km < 0 ∨ duration_minutes < 0 then none
  else some (round2 (e.base_fare + distance_km * e.per_km_rate +
    duration_minutes * e.per_minute_rate))

/-- PricingEngine.calculate_pooled_price (pricing_engine.py lines 132-179);
none models the ValueError branches. -/
def PricingEngine.calculate_pooled_price (e : PricingEngine)
    (base_price : ℚ) (num_riders_in_pool : ℤ) : Option ℚ :=
  if base_price < 0 then none
  else if num_riders_in_pool < 1 then none
  else
    let riders_key := min num_riders_in_pool 4
    let discount_rate := POOL_DISCOUNTS riders_key
    some (round2 (base_price * (1 - discount_rate)))

/-- PricingEngine.calculate_discount_percentage (pricing_engine.py lines
181-214); the branch order of the source is kept: the original_price <= 0
early return comes before the negative-discount ValueError. -/
def PricingEngine.calculate_discount_percentage (e : PricingEngine)
    (original_price discounted_price : ℚ) : Option ℚ :=
  if original_price ≤ 0 then some 0
  else if discounted_price < 0 then none
  else if original_price < discounted_price then some 0
  else some (round2 ((original_price - discounted_price) / original_price * 100))

/-- Result record of calculate_driver_earnings. -/
structure DriverEarnings where
  gross_revenue : ℚ
  platform_fee : ℚ
  net_earnings : ℚ
  earnings_per_km : ℚ
deriving DecidableEq

/-- PricingEngine.calculate_driver_earnings (pricing_engine.py lines
216-273), including the num_riders computation of lines 245-247 that
halves the number of distinct ride ids. -/
def PricingEngine.calculate_driver_earnings (e : PricingEngine)
    (route : VehicleRoute) : Option DriverEarnings :=
  let num_riders0 : ℕ := ((route.stops.map Stop.ride_id).dedup).length / 2
  let num_riders : ℕ :=
    if num_riders0 = 0 then max 1 (route.stops.length / 2) else num_riders0
  match e.calculate_base_price route.total_distance_km
      (route.total_duration_minutes : ℚ) with
  | none => none
  | some base_price =>
    match e.calculate_pooled_price base_price (num_riders : ℤ) with
    | none => none
    | some pooled_price =>
      let gross_revenue := pooled_price * (num_riders : ℚ)
      let platform_fee := gross_revenue * e.platform_fee_rate
      let net_earnings := gross_revenue - platform_fee
      let earnings_per_km :=
        if 0 < route.total_distance_km then net_earnings / route.total_distance_km
        else 0
      some ⟨round2 gross_revenue, round2 platform_fee,
            round2 net_earnings, round2 earnings_per_km⟩

/-- compute_pooling_efficiency (optimization/utils.py lines 8-28); the
total_rides argument is accepted and ignored exactly as in the source. -/
def compute_pooling_efficiency (cluster_size total_rides : ℤ) : ℚ :=
  if cluster_size ≤ 1 then 0
  else min (1/2) (((cluster_size : ℚ) - 1) * (3/20))

/-- An entry of the working ride list: the position of the ride in the
original input list (standing for Python object identity, the id() keys
of the assigned set) paired with the ride itself. -/
abbrev IRide : Type := ℕ × RideRequest

/-- Inner candidate scan of RidePooler.find_compatible_groups (pooling.py
lines 364-381): walk the sorted ride list, skip assigned rides, stop at
max_group_size, skip candidates that would exceed the vehicle capacity,
and add a candidate iff can_pool(seed, candidate). Returns the grown
group, the grown assigned set and the updated passenger total. -/
def scanCandidates (canPool : RideRequest → RideRequest → Bool)
    (cap maxSize : ℕ) (seed : RideRequest) :
    List IRide → Finset ℕ → List IRide → ℕ → List IRide × Finset ℕ × ℕ
  | [], assigned, group, pass => (group, assigned, pass)
  | (j, c) :: tl, assigned, group, pass =>
    if j ∈ assigned then
      scanCandidates canPool cap maxSize seed tl assigned group pass
    else if maxSize ≤ group.length then (group, assigned, pass)
    else if cap < pass + c.num_passengers then
      scanCandidates canPool cap maxSize seed tl assigned group pass
    else if canPool seed c then
      scanCandidates canPool cap maxSize seed tl (insert j assigned)
        (group ++ [(j, c)]) (pass + c.num_passengers)
    else
      scanCandidates canPool cap maxSize seed tl assigned group pass

/-- Outer seed loop of RidePooler.find_compatible_groups (pooling.py lines
355-384): each unassigned ride in sorted order seeds a new group, which is
then grown by scanning the whole sorted list. -/
def outerLoop (canPool : RideRequest → RideRequest → Bool) (cap maxSize : ℕ)
    (all : List IRide) :
    List IRide → Finset ℕ → List (List IRide) × Finset ℕ
  | [], assigned => ([], assigned)
  | (i, seed) :: tl, assigned =>
    if i ∈ assigned then outerLoop canPool cap maxSize all tl assigned
    else
      let scan := scanCandidates canPool cap maxSize seed all
        (insert i assigned) [(i, seed)] seed.num_passengers
      let rest := outerLoop canPool cap maxSize all tl scan.2.1
      (scan.1 :: rest.1, rest.2)

/-- The ride list sorted by preferred pickup time (pooling.py line 350),
after tagging each ride with its input position; Python sorted() is a
stable merge sort on the key. -/
def sortedRides (rides : List RideRequest) : List IRide :=
  (rides.enum).mergeSort
    (fun a b => a.2.time_window.preferred ≤ b.2.time_window.preferred)

/-- RidePooler.find_compatible_groups (pooling.py lines 321-387). The
compatibility test canPool stands for self.can_pool, whose internals
(Haversine distances, detour estimate) are real-valued and irrelevant to
the grouping structure, so it is a function parameter; the group-size,
assignment and capacity bookkeeping is embedded literally. -/
def find_compatible_groups (canPool : RideRequest → RideRequest → Bool)
    (vehicle_capacity : ℕ) (rides : List RideRequest)
    (max_group_size : ℕ) : List (List RideRequest) :=
  if rides.isEmpty then []
  else
    let sorted := sortedRides rides
    ((outerLoop canPool vehicle_capacity max_group_size sorted sorted ∅).1).map
      (fun g => g.map Prod.snd)

/-- pool_rides legacy entry point (pooling.py lines 468-475): a default
RidePooler (vehicle_capacity 4) with the default max_group_size 4. -/
def pool_rides (canPool : RideRequest → RideRequest → Bool)
    (ride_requests : List RideRequest) : List (List RideRequest) :=
  find_compatible_groups canPool 4 ride_requests 4

/-- Running load deltas along pickup stops: the per-stop passenger counts
accumulated from acc, one entry appended after every stop, exactly the
load_profile bookkeeping of solve_cluster (solver.py lines 512-523). -/
def loadsUp : ℤ → List RideRequest → List ℤ
  | _, [] => []
  | acc, r :: rs => (acc + (r.num_passengers : ℤ)) :: loadsUp (acc + (r.num_passengers : ℤ)) rs

/-- Running load deltas along dropoff stops (solver.py lines 526-537). -/
def loadsDown : ℤ → List RideRequest → List ℤ
  | _, [] => []
  | acc, r :: rs => (acc - (r.num_passengers : ℤ)) :: loadsDown (acc - (r.num_passengers : ℤ)) rs

/-- Sum of distances between consecutive stops (solver.py lines 540-545). -/
def consecutiveDistSum (dist : Location → Location → ℚ) : List Stop → ℚ
  | a :: b :: rest => dist a.location b.location + consecutiveDistSum dist (b :: rest)
  | _ => 0

/-- solve_cluster legacy solver (solver.py lines 488-557): all pickups in
cluster order, then all dropoffs in cluster order, with the running
load_profile, capacity_used = max(load_profile), and distance summed over
consecutive stops; dist stands for estimate_geographic_distance. -/
def solve_cluster (dist : Location → Location → ℚ)
    (cluster : List RideRequest) : VehicleRoute :=
  if cluster.isEmpty then ⟨0, [], 0, 0, 0, 0, []⟩
  else
    let n := cluster.length
    let pickups := cluster.enum.map (fun p =>
      Stop.mk p.2.id p.2.pickup StopType.pickup p.2.time_window p.2.num_passengers p.1)
    let dropoffs := cluster.enum.map (fun p =>
      Stop.mk p.2.id p.2.dropoff StopType.dropoff p.2.time_window p.2.num_passengers (n + p.1))
    let stops := pickups ++ dropoffs
    let total : ℤ := (cluster.map (fun r => (r.num_passengers : ℤ))).sum
    let load_profile := loadsUp 0 cluster ++ loadsDown total cluster
    let total_distance := consecutiveDistSum dist stops
    let total_duration := pyInt (total_distance / 30 * 60)
    ⟨0, stops, round2 total_distance, total_duration, listMax load_profile, 0, load_profile⟩

/-- RouteSolver._solve_greedy (solver.py lines 436-481): the fallback when
OR-Tools is unavailable builds one solo route per ride, enumerating rides
for the vehicle id; dist stands for estimate_geographic_distance. -/
def solve_greedy (dist : Location → Location → ℚ)
    (rides : List RideRequest) : List VehicleRoute :=
  rides.enum.map (fun p =>
    let r := p.2
    let d := dist r.pickup r.dropoff
    VehicleRoute.mk p.1
      [Stop.mk r.id r.pickup StopType.pickup r.time_window r.num_passengers 0,
       Stop.mk r.id r.dropoff StopType.dropoff r.time_window r.num_passengers 1]
      (round2 d) (pyInt (d / 30 * 60)) (r.num_passengers : ℤ) 0
      [(r.num_passengers : ℤ), 0])

/-- OptimizationService._create_solo_route (optimizer.py lines 389-421);
the random uuid suffix of the vehicle id is modelled as a ℕ parameter. -/
def create_solo_route (dist : Location → Location → ℚ) (vid : ℕ)
    (ride : RideRequest) : VehicleRoute :=
  let d := dist ride.pickup ride.dropoff
  VehicleRoute.mk vid
    [Stop.mk ride.id ride.pickup StopType.pickup ride.time_window ride.num_passengers 0,
     Stop.mk ride.id ride.dropoff StopType.dropoff ride.time_window ride.num_passengers 1]
    (round2 d) (pyInt (d / 30 * 60)) (ride.num_passengers : ℤ) 0
    [(ride.num_passengers : ℤ), 0]

/-- Route assembly step of RouteSolver._extract_routes (solver.py lines
411-425): the stop list, load profile and final cumulative time walked out
of the OR-Tools solution are abstract inputs here, since the solution
itself comes from the external solver; the route record is then built
exactly as in the source (none models the skipped empty-stop routes). -/
def extract_route_assemble (vehicle_id : ℕ) (stops : List Stop)
    (load_profile : List ℤ) (total_time : ℤ) : Option VehicleRoute :=
  if stops.isEmpty then none
  else some (VehicleRoute.mk vehicle_id stops
    (round2 ((total_time : ℚ) / 60 * 30)) total_time
    (listMax load_profile) 0 load_profile)

/-- Signed passenger delta of one stop: pickups add, dropoffs subtract. -/
def stopDelta (s : Stop) : ℤ :=
  match s.type with
  | StopType.pickup => (s.num_passengers : ℤ)
  | StopType.dropoff => -(s.num_passengers : ℤ)

/-- Running passenger sum after a list of stops. -/
def runningLoad (l : List Stop) : ℤ := (l.map stopDelta).sum

/-- Concrete route serving two rides (ids 1 and 2, one passenger each),
10 km and 25 minutes in total: the C4 failing input. -/
def twoRideRoute : VehicleRoute :=
  ⟨0,
   [⟨1, ⟨0, 0⟩, StopType.pickup, ⟨0, 0, 10⟩, 1, 0⟩,
    ⟨2, ⟨0, 0⟩, StopType.pickup, ⟨0, 0, 10⟩, 1, 1⟩,
    ⟨1, ⟨0, 0⟩, StopType.dropoff, ⟨0, 0, 10⟩, 1, 2⟩,
    ⟨2, ⟨0, 0⟩, StopType.dropoff, ⟨0, 0, 10⟩, 1, 3⟩],
   10, 25, 2, 0, [1, 2, 1, 0]⟩

/-- Two concrete compatible-shaped ride requests used by the concrete
instantiations of the pooling and solver theorems. -/
def rideA : RideRequest := ⟨1, ⟨0, 0⟩, ⟨1, 1⟩, ⟨0, 5, 10⟩, 1⟩

/-- Second concrete ride request, one passenger, window [0,10]. -/
def rideB : RideRequest := ⟨2, ⟨0, 0⟩, ⟨2, 2⟩, ⟨0, 6, 10⟩, 2⟩

/-- Bookkeeping invariant of the inner candidate scan: the scan appends
only fresh candidates taken from its input list, all of which pass the
seed compatibility test, it keeps the assigned key set in sync with the
group, and it keeps the passenger total within the capacity. -/
theorem scanCandidates_spec (canPool : RideRequest → RideRequest → Bool)
    (cap maxSize : ℕ) (seed : RideRequest) :
    ∀ (rest : List IRide) (assigned : Finset ℕ) (group : List IRide) (pass : ℕ),
    ∃ new : List IRide,
      (scanCandidates canPool cap maxSize seed rest assigned group pass).1 =
        group ++ new ∧
      (∀ k : ℕ,
        k ∈ (scanCandidates canPool cap maxSize seed rest assigned group pass).2.1 ↔
        k ∈ assigned ∨ ∃ x ∈ new, x.1 = k) ∧
      (new.map Prod.fst).Nodup ∧
      (∀ x ∈ new, x ∈ rest ∧ x.1 ∉ assigned ∧ canPool seed x.2 = true) ∧
      (scanCandidates canPool cap maxSize seed rest assigned group pass).2.2 =
        pass + (new.map (fun x => x.2.num_passengers)).sum ∧
      (pass ≤ cap →
        (scanCandidates canPool cap maxSize seed rest assigned group pass).2.2 ≤ cap) := by
  intro rest
  induction rest with
  | nil =>
    intro assigned group pass
    refine ⟨[], by simp [scanCandidates], ?_, by simp, by simp, by simp [scanCandidates],
      by simp [scanCandidates]⟩
    intro k
    simp [scanCandidates]
  | cons hd tl ih =>
    obtain ⟨j, c⟩ := hd
    intro assigned group pass
    by_cases h1 : j ∈ assigned
    · have heq : scanCandidates canPool cap maxSize seed ((j, c) :: tl) assigned group pass =
          scanCandidates canPool cap maxSize seed tl assigned group pass := by
        simp [scanCandidates, h1]
      obtain ⟨new, hg, ha, hn, hm, hp, hc⟩ := ih assigned group pass
      rw [heq]
      exact ⟨new, hg, ha, hn,
        fun x hx => ⟨List.mem_cons_of_mem _ (hm x hx).1, (hm x hx).2.1, (hm x hx).2.2⟩,
        hp, hc⟩
    · by_cases h2 : maxSize ≤ group.length
      · have heq : scanCandidates canPool cap maxSize seed ((j, c) :: tl) assigned group pass =
            (group, assigned, pass) := by
          simp [scanCandidates, h1, h2]
        rw [heq]
        refine ⟨[], by simp, ?_, by simp, by simp, by simp, by simp⟩
        intro k
        simp
      · by_cases h3 : cap < pass + c.num_passengers
        · have heq : scanCandidates canPool cap maxSize seed ((j, c) :: tl) assigned group pass =
              scanCandidates canPool cap maxSize seed tl assigned group pass := by
            simp [scanCandidates, h1, h2, h3]
          obtain ⟨new, hg, ha, hn, hm, hp, hc⟩ := ih assigned group pass
          rw [heq]
          exact ⟨new, hg, ha, hn,
            fun x hx => ⟨List.mem_cons_of_mem _ (hm x hx).1, (hm x hx).2.1, (hm x hx).2.2⟩,
            hp, hc⟩
        · by_cases h4 : canPool seed c
          · have heq : scanCandidates canPool cap maxSize seed ((j, c) :: tl) assigned group pass =
                scanCandidates canPool cap maxSize seed tl (insert j assigned)
                  (group ++ [(j, c)]) (pass + c.num_passengers) := by
              simp [scanCandidates, h1, h2, h3, h4]
            obtain ⟨new, hg, ha, hn, hm, hp, hc⟩ :=
              ih (insert j assigned) (group ++ [(j, c)]) (pass + c.num_passengers)
            rw [heq]
            refine ⟨(j, c) :: new, ?_, ?_, ?_, ?_, ?_, ?_⟩
            · rw [hg, List.append_assoc]
              rfl
            · intro k
              rw [ha k]
              simp only [Finset.mem_insert, List.mem_cons]
              constructor
              · rintro (⟨rfl | hk⟩ | ⟨x, hx, rfl⟩)
                · exact Or.inr ⟨(k, c), Or.inl rfl, rfl⟩
                · exact Or.inl hk
                · exact Or.inr ⟨x, Or.inr hx, rfl⟩
              · rintro (hk | ⟨x, hx | hx, rfl⟩)
                · exact Or.inl (Or.inr hk)
                · rw [hx]
                  exact Or.inl (Or.inl rfl)
                · exact Or.inr ⟨x, hx, rfl⟩
            · simp only [List.map_cons, List.nodup_cons]
              refine ⟨?_, hn⟩
              intro hj
              obtain ⟨x, hx, hxj⟩ := List.mem_map.mp hj
              have := (hm x hx).2.1
              rw [hxj] at this
              exact this (Finset.mem_insert_self j assigned)
            · intro x hx
              rcases List.mem_cons.mp hx with rfl | hx
              · exact ⟨List.mem_cons_self _ _, h1, h4⟩
              · refine ⟨List.mem_cons_of_mem _ (hm x hx).1, ?_, (hm x hx).2.2⟩
                intro hxa
                exact (hm x hx).2.1 (Finset.mem_insert_of_mem hxa)
            · rw [hp]
              simp only [List.map_cons, List.sum_cons]
              omega
            · intro _
              exact hc (Nat.not_lt.mp h3)
          · have heq : scanCandidates canPool cap maxSize seed ((j, c) :: tl) assigned group pass =
                scanCandidates canPool cap maxSize seed tl assigned group pass := by
              simp [scanCandidates, h1, h2, h3, h4]
            obtain ⟨new, hg, ha, hn, hm, hp, hc⟩ := ih assigned group pass
            rw [heq]
            exact ⟨new, hg, ha, hn,
              fun x hx => ⟨List.mem_cons_of_mem _ (hm x hx).1, (hm x hx).2.1, (hm x hx).2.2⟩,
              hp, hc⟩

/-- Bookkeeping invariant of the outer seed loop: the produced groups are
headed by their seed, contain only entries of the full sorted list with
pairwise distinct keys that were not assigned on entry, every processed
item key ends up assigned, the final assigned set is the entry set plus
the grouped keys, and every group respects the vehicle capacity. -/
theorem outerLoop_spec (canPool : RideRequest → RideRequest → Bool)
    (cap maxSize : ℕ) (all : List IRide) :
    ∀ (items : List IRide) (assigned : Finset ℕ) (gs : List (List IRide)) (aF : Finset ℕ),
    (∀ x ∈ items, x ∈ all) →
    outerLoop canPool cap maxSize all items assigned = (gs, aF) →
    (∀ k : ℕ, k ∈ aF ↔ k ∈ assigned ∨ ∃ x ∈ gs.flatten, x.1 = k) ∧
    ((gs.flatten.map Prod.fst).Nodup) ∧
    (∀ x ∈ gs.flatten, x ∈ all ∧ x.1 ∉ assigned) ∧
    (∀ p ∈ items, p.1 ∈ aF) ∧
    (∀ g ∈ gs, ∃ s t, g = s :: t ∧ s ∈ all ∧
      (∀ x ∈ t, canPool s.2 x.2 = true) ∧
      ((∀ r ∈ all, r.2.num_passengers ≤ cap) →
        (g.map (fun x => x.2.num_passengers)).sum ≤ cap)) := by
  intro items
  induction items with
  | nil =>
    intro assigned gs aF hsub hout
    rw [outerLoop] at hout
    obtain ⟨rfl, rfl⟩ := Prod.mk.injEq .. ▸ hout
    refine ⟨?_, by simp, by simp, by simp, by simp⟩
    intro k
    simp
  | cons hd tl ih =>
    obtain ⟨i, seed⟩ := hd
    intro assigned gs aF hsub hout
    have hsubtl : ∀ x ∈ tl, x ∈ all := fun x hx => hsub x (List.mem_cons_of_mem _ hx)
    by_cases h1 : i ∈ assigned
    · have heq : outerLoop canPool cap maxSize all ((i, seed) :: tl) assigned =
          outerLoop canPool cap maxSize all tl assigned := by
        simp [outerLoop, h1]
      rw [heq] at hout
      obtain ⟨ih1, ih2, ih3, ih4, ih5⟩ := ih assigned gs aF hsubtl hout
      refine ⟨ih1, ih2, ih3, ?_, ih5⟩
      intro p hp
      rcases List.mem_cons.mp hp with rfl | hp2
      · exact (ih1 _).mpr (Or.inl h1)
      · exact ih4 p hp2
    · rcases hscan : scanCandidates canPool cap maxSize seed all (insert i assigned)
        [(i, seed)] seed.num_passengers with ⟨g1, a1, p1⟩
      rcases houter : outerLoop canPool cap maxSize all tl a1 with ⟨gs1, aF1⟩
      have heq : outerLoop canPool cap maxSize all ((i, seed) :: tl) assigned =
          (g1 :: gs1, aF1) := by
        rw [outerLoop]
        simp only [h1, if_neg, ite_false, hscan, houter]
      rw [heq] at hout
      obtain ⟨hgs, haF⟩ := Prod.mk.injEq .. ▸ hout
      subst hgs
      subst haF
      obtain ⟨new, hg, ha, hn, hm, hp, hc⟩ := scanCandidates_spec canPool cap maxSize seed
        all (insert i assigned) [(i, seed)] seed.num_passengers
      rw [hscan] at hg ha hp hc
      simp only [List.singleton_append] at hg ha hp hc
      subst hg
      obtain ⟨ih1, ih2, ih3, ih4, ih5⟩ := ih a1 gs1 aF1 hsubtl houter
      have ha1 : ∀ k : ℕ, k ∈ a1 ↔ (k = i ∨ k ∈ assigned) ∨ ∃ x ∈ new, x.1 = k := by
        intro k
        rw [ha k]
        simp [Finset.mem_insert]
      have hflatten : (((i, seed) :: new) :: gs1).flatten =
          ((i, seed) :: new) ++ gs1.flatten := by
        simp
      have hkey_new : ∀ x ∈ new, x.1 ≠ i ∧ x.1 ∉ assigned := by
        intro x hx
        have := (hm x hx).2.1
        simp [Finset.mem_insert] at this
        exact ⟨this.1, this.2⟩
      have hflat1_all : ∀ x ∈ gs1.flatten, x ∈ all ∧ x.1 ∉ a1 := ih3
      refine ⟨?_, ?_, ?_, ?_, ?_⟩
      · intro k
        rw [ih1 k, ha1 k, hflatten]
        constructor
        · rintro (((hki | hk) | ⟨x, hx, rfl⟩) | ⟨x, hx, rfl⟩)
          · refine Or.inr ⟨(i, seed), by simp, hki.symm⟩
          · exact Or.inl hk
          · exact Or.inr ⟨x, by simp [hx], rfl⟩
          · exact Or.inr ⟨x, by simp [hx], rfl⟩
        · rintro (hk | ⟨x, hx, rfl⟩)
          · exact Or.inl (Or.inl (Or.inr hk))
          · rcases List.mem_append.mp hx with hx2 | hx2
            · rcases List.mem_cons.mp hx2 with rfl | hx3
              · exact Or.inl (Or.inl (Or.inl rfl))
              · exact Or.inl (Or.inr ⟨x, hx3, rfl⟩)
            · exact Or.inr ⟨x, hx2, rfl⟩
      · rw [hflatten, List.map_append, List.nodup_append]
        refine ⟨?_, ih2, ?_⟩
        · simp only [List.map_cons, List.nodup_cons]
          constructor
          · intro hcon
            obtain ⟨x, hx, hxi⟩ := List.mem_map.mp hcon
            exact (hkey_new x hx).1 hxi
          · exact hn
        · intro k hk hk2
          obtain ⟨y, hy, hyk⟩ := List.mem_map.mp hk2
          have hna1 : k ∉ a1 := hyk ▸ (hflat1_all y hy).2
          apply hna1
          rw [ha1 k]
          obtain ⟨x, hx, hxk⟩ := List.mem_map.mp hk
          rcases List.mem_cons.mp hx with rfl | hx2
          · exact Or.inl (Or.inl hxk.symm)
          · exact Or.inr ⟨x, hx2, hxk⟩
      · rw [hflatten]
        intro x hx
        rcases List.mem_append.mp hx with hx | hx
        · rcases List.mem_cons.mp hx with rfl | hx
          · exact ⟨hsub _ (List.mem_cons_self _ _), h1⟩
          · exact ⟨(hm x hx).1, (hkey_new x hx).2⟩
        · refine ⟨(hflat1_all x hx).1, ?_⟩
          intro hcon
          apply (hflat1_all x hx).2
          rw [ha1]
          exact Or.inl (Or.inr hcon)
      · intro p hp
        rcases List.mem_cons.mp hp with rfl | hp2
        · exact (ih1 _).mpr (Or.inl ((ha1 _).mpr (Or.inl (Or.inl rfl))))
        · exact ih4 p hp2
      · intro g hg
        rcases List.mem_cons.mp hg with rfl | hg
        · refine ⟨(i, seed), new, rfl, hsub _ (List.mem_cons_self _ _), ?_, ?_⟩
          · intro x hx
            exact (hm x hx).2.2
          · intro hcapall
            have hseed : seed.num_passengers ≤ cap :=
              hcapall (i, seed) (hsub _ (List.mem_cons_self _ _))
            have := hc hseed
            rw [hp] at this
            simp only [List.map_cons, List.sum_cons]
            omega
        · exact ih5 g hg

/-- The sorted working list is a permutation of the enumerated input. -/
theorem sortedRides_perm (rides : List RideRequest) :
    (sortedRides rides).Perm rides.enum :=
  List.mergeSort_perm _ _

/-- The keys of the sorted working list are pairwise distinct. -/
theorem sortedRides_keys_nodup (rides : List RideRequest) :
    ((sortedRides rides).map Prod.fst).Nodup := by
  have hperm := (sortedRides_perm rides).map Prod.fst
  rw [hperm.nodup_iff, List.enum_map_fst]
  exact List.nodup_range _

/-- Every entry of the sorted working list is the input ride at its key. -/
theorem mem_sortedRides (rides : List RideRequest) (x : IRide)
    (hx : x ∈ sortedRides rides) :
    ∃ h : x.1 < rides.length, rides.get ⟨x.1, h⟩ = x.2 := by
  have hx2 : x ∈ rides.enum := (sortedRides_perm rides).mem_iff.mp hx
  rw [List.mem_enum_iff_getElem?] at hx2
  obtain ⟨h, hget⟩ := List.getElem?_eq_some.mp hx2
  exact ⟨h, hget⟩

/-- Every position of the input list appears in the sorted working list. -/
theorem sortedRides_mem (rides : List RideRequest) (k : ℕ) (hk : k < rides.length) :
    (k, rides.get ⟨k, hk⟩) ∈ sortedRides rides := by
  rw [(sortedRides_perm rides).mem_iff, List.mem_enum_iff_getElem?]
  simp [List.getElem?_eq_getElem hk]

/-- C1: every input request appears in exactly one output cluster of
find_compatible_groups (the flattened clusters are a permutation of the
input), and a request compatible with nothing in either direction of the
can_pool test ends up as a singleton cluster, for every compatibility
test, capacity and group-size bound. -/
theorem find_compatible_groups_partition (canPool : RideRequest → RideRequest → Bool)
    (cap maxSize : ℕ) (rides : List RideRequest) :
    ((find_compatible_groups canPool cap rides maxSize).flatten).Perm rides ∧
    (∀ (k : ℕ) (hk : k < rides.length),
      (∀ (j : ℕ) (hj : j < rides.length), j ≠ k →
        canPool (rides.get ⟨k, hk⟩) (rides.get ⟨j, hj⟩) = false ∧
        canPool (rides.get ⟨j, hj⟩) (rides.get ⟨k, hk⟩) = false) →
      [rides.get ⟨k, hk⟩] ∈ find_compatible_groups canPool cap rides maxSize) := by
  by_cases hemp : rides.isEmpty
  · rw [List.isEmpty_iff] at hemp
    subst hemp
    constructor
    · simp [find_compatible_groups]
    · intro k hk
      simp at hk
  · rcases houter : outerLoop canPool cap maxSize (sortedRides rides)
      (sortedRides rides) ∅ with ⟨gs, aF⟩
    have hfind : find_compatible_groups canPool cap rides maxSize =
        gs.map (List.map Prod.snd) := by
      rw [find_compatible_groups, if_neg hemp]
      simp only [houter]
    obtain ⟨h1, h2, h3, h4, h5⟩ := outerLoop_spec canPool cap maxSize
      (sortedRides rides) (sortedRides rides) ∅ gs aF (fun x hx => hx) houter
    have hkeys := sortedRides_keys_nodup rides
    have hflat_mem : ∀ x ∈ gs.flatten, x ∈ sortedRides rides :=
      fun x hx => (h3 x hx).1
    have hmem_flat : ∀ x ∈ sortedRides rides, x ∈ gs.flatten := by
      intro x hx
      have hk : x.1 ∈ aF := h4 x hx
      rw [h1 x.1] at hk
      rcases hk with hk | ⟨y, hy, hyk⟩
      · exact absurd hk (Finset.not_mem_empty _)
      · have hyx : y = x :=
          List.inj_on_of_nodup_map hkeys (hflat_mem y hy) hx hyk
        exact hyx ▸ hy
    have hperm_flat : gs.flatten.Perm (sortedRides rides) := by
      rw [List.perm_ext_iff_of_nodup (List.Nodup.of_map _ h2)
        (List.Nodup.of_map _ hkeys)]
      exact fun a => ⟨hflat_mem a, hmem_flat a⟩
    constructor
    · rw [hfind]
      have hmap : ((gs.map (List.map Prod.snd)).flatten) = gs.flatten.map Prod.snd :=
        (List.map_flatten Prod.snd gs).symm
      rw [hmap]
      have : (gs.flatten.map Prod.snd).Perm ((sortedRides rides).map Prod.snd) :=
        hperm_flat.map Prod.snd
      refine this.trans ?_
      have : ((sortedRides rides).map Prod.snd).Perm (rides.enum.map Prod.snd) :=
        (sortedRides_perm rides).map Prod.snd
      rw [List.enum_map_snd] at this
      exact this
    · intro k hk hcompat
      have hx_sorted : (k, rides.get ⟨k, hk⟩) ∈ sortedRides rides :=
        sortedRides_mem rides k hk
      have hx_flat : (k, rides.get ⟨k, hk⟩) ∈ gs.flatten := hmem_flat _ hx_sorted
      obtain ⟨g, hg, hxg⟩ := List.mem_flatten.mp hx_flat
      obtain ⟨s, t, rfl, hs_all, ht_pool, hcapg⟩ := h5 g hg
      have hgkeys : ((s :: t).map Prod.fst).Nodup :=
        List.Nodup.sublist ((List.sublist_flatten_of_mem hg).map Prod.fst) h2
      have hy : (k, rides.get ⟨k, hk⟩) = s ∨ (k, rides.get ⟨k, hk⟩) ∈ t :=
        List.mem_cons.mp hxg
      rcases hy with hy | hy
      · have ht_nil : t = [] := by
          rcases ht : t with _ | ⟨z, t2⟩
          · rfl
          · exfalso
            have hz_t : z ∈ t := by
              rw [ht]
              exact List.mem_cons_self _ _
            have hz_flat : z ∈ gs.flatten :=
              List.mem_flatten.mpr ⟨s :: t, hg, List.mem_cons_of_mem _ hz_t⟩
            obtain ⟨hzlen, hzget⟩ := mem_sortedRides rides z (hflat_mem z hz_flat)
            have hzk : z.1 ≠ k := by
              intro hcon
              simp only [List.map_cons, List.nodup_cons] at hgkeys
              apply hgkeys.1
              rw [← hy]
              simp only []
              rw [← hcon]
              exact List.mem_map.mpr ⟨z, hz_t, rfl⟩
            have hpool_true : canPool s.2 z.2 = true := ht_pool z hz_t
            have hpool_false : canPool (rides.get ⟨k, hk⟩) (rides.get ⟨z.1, hzlen⟩) = false :=
              (hcompat z.1 hzlen hzk).1
            rw [← hy] at hpool_true
            simp only [] at hpool_true
            rw [hzget] at hpool_false
            rw [hpool_true] at hpool_false
            exact Bool.true_eq_false.mp hpool_false
        subst ht_nil
        rw [hfind]
        refine List.mem_map.mpr ⟨[s], hg, ?_⟩
        rw [← hy]
        rfl
      · exfalso
        obtain ⟨hslen, hsget⟩ := mem_sortedRides rides s hs_all
        have hsk : s.1 ≠ k := by
          intro hcon
          simp only [List.map_cons, List.nodup_cons] at hgkeys
          apply hgkeys.1
          rw [hcon]
          exact List.mem_map.mpr ⟨(k, rides.get ⟨k, hk⟩), hy, rfl⟩
        have hpool_true : canPool s.2 (rides.get ⟨k, hk⟩) = true := by
          have := ht_pool _ hy
          simpa using this
        have hpool_false : canPool (rides.get ⟨s.1, hslen⟩) (rides.get ⟨k, hk⟩) = false :=
          (hcompat s.1 hslen hsk).2
        rw [hsget, hpool_true] at hpool_false
        exact Bool.true_eq_false.mp hpool_false

/-- Every cluster formed by find_compatible_groups keeps its total
passenger count within the vehicle capacity, as long as every single
request fits the vehicle (the capacity guard of pooling.py line 374 checks
the running group total before each addition; the seed itself enters
unchecked, hence the hypothesis on single requests). -/
theorem find_compatible_groups_sum (canPool : RideRequest → RideRequest → Bool)
    (cap maxSize : ℕ) (rides : List RideRequest)
    (hcap : ∀ r ∈ rides, r.num_passengers ≤ cap) :
    ∀ g ∈ find_compatible_groups canPool cap rides maxSize,
      (g.map RideRequest.num_passengers).sum ≤ cap := by
  by_cases hemp : rides.isEmpty
  · rw [List.isEmpty_iff] at hemp
    subst hemp
    intro g hg
    simp [find_compatible_groups] at hg
  · rcases houter : outerLoop canPool cap maxSize (sortedRides rides)
      (sortedRides rides) ∅ with ⟨gs, aF⟩
    have hfind : find_compatible_groups canPool cap rides maxSize =
        gs.map (List.map Prod.snd) := by
      rw [find_compatible_groups, if_neg hemp]
      simp only [houter]
    obtain ⟨h1, h2, h3, h4, h5⟩ := outerLoop_spec canPool cap maxSize
      (sortedRides rides) (sortedRides rides) ∅ gs aF (fun x hx => hx) houter
    intro g hg
    rw [hfind] at hg
    obtain ⟨ig, hig, rfl⟩ := List.mem_map.mp hg
    obtain ⟨s, t, rfl, hs_all, ht_pool, hcapg⟩ := h5 ig hig
    have hall : ∀ r ∈ sortedRides rides, r.2.num_passengers ≤ cap := by
      intro r hr
      obtain ⟨hlen, hget⟩ := mem_sortedRides rides r hr
      exact hget ▸ hcap _ (List.get_mem rides _ hlen)
    rw [List.map_map]
    exact hcapg hall

/-- Partial sums of a list of non-negative integers stay between 0 and
the full sum. -/
theorem take_sum_bounds (L : List ℤ) (hpos : ∀ x ∈ L, 0 ≤ x) (k : ℕ) :
    0 ≤ (L.take k).sum ∧ (L.take k).sum ≤ L.sum := by
  constructor
  · exact List.sum_nonneg (fun x hx => hpos x ((List.take_sublist k L).subset hx))
  · have hsplit : L.sum = (L.take k).sum + (L.drop k).sum := by
      rw [← List.sum_append, List.take_append_drop]
    have hd : 0 ≤ (L.drop k).sum :=
      List.sum_nonneg (fun x hx => hpos x ((List.drop_sublist k L).subset hx))
    omega

/-- Summing a negated integer list negates the sum. -/
theorem sum_map_neg_list (L : List ℤ) : (L.map (fun x : ℤ => -x)).sum = -(L.sum) := by
  induction L with
  | nil => simp
  | cons x xs ih =>
    rw [List.map_cons, List.sum_cons, List.sum_cons, ih]
    ring

/-- Partial sum of a negated integer list. -/
theorem sum_take_map_neg (L : List ℤ) (m : ℕ) :
    ((L.map (fun x : ℤ => -x)).take m).sum = -((L.take m).sum) := by
  rw [← List.map_take, sum_map_neg_list]

/-- Casting the sum of a list of naturals into ℤ. -/
theorem natCast_sum_list (l : List ℕ) :
    ((l.map (fun p : ℕ => (p : ℤ))).sum) = ((l.sum : ℕ) : ℤ) := by
  induction l with
  | nil => simp
  | cons x xs ih =>
    rw [List.map_cons, List.sum_cons, List.sum_cons, ih]
    push_cast
    ring

/-- The per-stop deltas of a solve_cluster route are the passenger counts
of the cluster in order, followed by their negations in order. -/
theorem solve_cluster_deltas (dist : Location → Location → ℚ)
    (cluster : List RideRequest) :
    (solve_cluster dist cluster).stops.map stopDelta =
      cluster.map (fun r => (r.num_passengers : ℤ)) ++
      (cluster.map (fun r => (r.num_passengers : ℤ))).map (fun x : ℤ => -x) := by
  by_cases hemp : cluster.isEmpty
  · rw [List.isEmpty_iff] at hemp
    subst hemp
    simp [solve_cluster]
  · rw [solve_cluster, if_neg hemp]
    simp only [List.map_append, List.map_map]
    have hsnd : ∀ f : RideRequest → ℤ,
        cluster.map f = cluster.enum.map (fun p => f p.2) := by
      intro f
      conv_lhs => rw [← List.enum_map_snd cluster]
      rw [List.map_map]
      rfl
    rw [hsnd (fun r => (r.num_passengers : ℤ)),
      hsnd ((fun x : ℤ => -x) ∘ (fun r : RideRequest => (r.num_passengers : ℤ)))]
    congr 1 <;> exact List.map_congr_left (fun p _ => rfl)

/-- C2: in the embeddable optimization pipeline (optimize_rides:
pool_rides into clusters, then solve_cluster per cluster), for every route
and every prefix of its stop list the running passenger sum stays within
[0, 4], given valid requests (1..4 passengers each). -/
theorem capacity_invariant (canPool : RideRequest → RideRequest → Bool)
    (dist : Location → Location → ℚ) (rides : List RideRequest)
    (hvalid : ∀ r ∈ rides, 1 ≤ r.num_passengers ∧ r.num_passengers ≤ 4) :
    ∀ g ∈ pool_rides canPool rides, ∀ k : ℕ,
      0 ≤ runningLoad ((solve_cluster dist g).stops.take k) ∧
      runningLoad ((solve_cluster dist g).stops.take k) ≤ 4 := by
  intro g hg k
  have hsum : (g.map RideRequest.num_passengers).sum ≤ 4 :=
    find_compatible_groups_sum canPool 4 4 rides (fun r hr => (hvalid r hr).2) g hg
  have hA : g.map (fun r => (r.num_passengers : ℤ)) =
      (g.map RideRequest.num_passengers).map (fun p : ℕ => (p : ℤ)) := by
    rw [List.map_map]
    rfl
  have hApos : ∀ x ∈ g.map (fun r => (r.num_passengers : ℤ)), 0 ≤ x := by
    intro x hx
    obtain ⟨r, _, rfl⟩ := List.mem_map.mp hx
    positivity
  have hAsum : (g.map (fun r => (r.num_passengers : ℤ))).sum ≤ 4 := by
    rw [hA, natCast_sum_list]
    exact_mod_cast hsum
  have hload : runningLoad ((solve_cluster dist g).stops.take k) =
      ((g.map (fun r => (r.num_passengers : ℤ))).take k).sum -
      ((g.map (fun r => (r.num_passengers : ℤ))).take
        (k - (g.map (fun r => (r.num_passengers : ℤ))).length)).sum := by
    rw [runningLoad, List.map_take, solve_cluster_deltas dist g,
      List.take_append_eq_append_take, List.sum_append, sum_take_map_neg]
    ring
  rw [hload]
  obtain ⟨hu0, huS⟩ := take_sum_bounds _ hApos k
  obtain ⟨hv0, hvS⟩ := take_sum_bounds _ hApos
    (k - (g.map (fun r => (r.num_passengers : ℤ))).length)
  have hvu : ((g.map (fun r => (r.num_passengers : ℤ))).take
      (k - (g.map (fun r => (r.num_passengers : ℤ))).length)).sum ≤
      ((g.map (fun r => (r.num_passengers : ℤ))).take k).sum := by
    have hmin : (g.map (fun r => (r.num_passengers : ℤ))).take
        (k - (g.map (fun r => (r.num_passengers : ℤ))).length) =
        ((g.map (fun r => (r.num_passengers : ℤ))).take k).take
        (k - (g.map (fun r => (r.num_passengers : ℤ))).length) := by
      rw [List.take_take]
      congr 1
      omega
    rw [hmin]
    exact (take_sum_bounds _ (fun x hx =>
      hApos x ((List.take_sublist k _).subset hx)) _).2
  constructor
  · omega
  · omega

/-- C3 counterexample: with OR-Tools unavailable the fallback solver
RouteSolver._solve_greedy is one-vehicle-per-ride: on a two-ride cluster
it returns 2 routes, not the single nearest-neighbor route the claim
describes. -/
theorem solve_greedy_cex :
    (solve_greedy (fun _ _ => 0) [rideA, rideB]).length = 2 ∧ (2 : ℕ) ≠ 1 := by
  constructor
  · rw [solve_greedy, List.length_map, List.enum_length]
    rfl
  · decide

/-- C3 amended: when the exact optimizer is unavailable _solve_greedy
returns one solo route per ride (its pickup then its dropoff), in input
order; the legacy solve_cluster returns a single route whose stops are all
pickups in cluster order followed by all dropoffs in cluster order — no
nearest-neighbor reordering happens anywhere on this path. -/
theorem solver_fallback_amended (dist : Location → Location → ℚ)
    (rides cluster : List RideRequest) :
    ((solve_greedy dist rides).map
        (fun v => v.stops.map (fun s => (s.ride_id, s.type)))) =
      rides.map (fun r => [(r.id, StopType.pickup), (r.id, StopType.dropoff)]) ∧
    (solve_cluster dist cluster).stops.map (fun s => (s.ride_id, s.type)) =
      cluster.map (fun r => (r.id, StopType.pickup)) ++
      cluster.map (fun r => (r.id, StopType.dropoff)) := by
  constructor
  · rw [solve_greedy, List.map_map]
    have hsnd : rides.map (fun r => [(r.id, StopType.pickup), (r.id, StopType.dropoff)]) =
        rides.enum.map (fun p => [(p.2.id, StopType.pickup), (p.2.id, StopType.dropoff)]) := by
      conv_lhs => rw [← List.enum_map_snd rides]
      rw [List.map_map]
      rfl
    rw [hsnd]
    exact List.map_congr_left (fun p _ => rfl)
  · by_cases hemp : cluster.isEmpty
    · rw [List.isEmpty_iff] at hemp
      subst hemp
      simp [solve_cluster]
    · rw [solve_cluster, if_neg hemp]
      simp only [List.map_append, List.map_map]
      have hsnd : ∀ (f : RideRequest → ℕ × StopType),
          cluster.map f = cluster.enum.map (fun p => f p.2) := by
        intro f
        conv_lhs => rw [← List.enum_map_snd cluster]
        rw [List.map_map]
        rfl
      rw [hsnd (fun r => (r.id, StopType.pickup)),
        hsnd (fun r => (r.id, StopType.dropoff))]
      congr 1 <;> exact List.map_congr_left (fun p _ => rfl)

/-- C9: in each of the four route constructors — the legacy solve_cluster,
the greedy fallback, the solo-route fallback, and the route assembly of
the OR-Tools extraction — the capacity_used field equals the maximum of
the load_profile list (0 when the profile is empty). -/
theorem capacity_used_eq_max_load (dist : Location → Location → ℚ) :
    (∀ cluster : List RideRequest,
      (solve_cluster dist cluster).capacity_used =
        listMax (solve_cluster dist cluster).load_profile) ∧
    (∀ rides : List RideRequest, ∀ v ∈ solve_greedy dist rides,
      v.capacity_used = listMax v.load_profile) ∧
    (∀ (vid : ℕ) (ride : RideRequest),
      (create_solo_route dist vid ride).capacity_used =
        listMax (create_solo_route dist vid ride).load_profile) ∧
    (∀ (vid : ℕ) (stops : List Stop) (lp : List ℤ) (t : ℤ) (route : VehicleRoute),
      extract_route_assemble vid stops lp t = some route →
      route.capacity_used = listMax route.load_profile) := by
  refine ⟨?_, ?_, ?_, ?_⟩
  · intro cluster
    by_cases hemp : cluster.isEmpty
    · rw [List.isEmpty_iff] at hemp
      subst hemp
      simp [solve_cluster, listMax]
    · rw [solve_cluster, if_neg hemp]
  · intro rides v hv
    rw [solve_greedy] at hv
    obtain ⟨p, _, rfl⟩ := List.mem_map.mp hv
    have h0 : (0 : ℤ) ≤ (p.2.num_passengers : ℤ) := Int.natCast_nonneg _
    show ((p.2.num_passengers : ℤ)) = listMax [(p.2.num_passengers : ℤ), 0]
    rw [listMax]
    show (p.2.num_passengers : ℤ) = max (p.2.num_passengers : ℤ) 0
    rw [max_eq_left h0]
  · intro vid ride
    have h0 : (0 : ℤ) ≤ (ride.num_passengers : ℤ) := Int.natCast_nonneg _
    show ((ride.num_passengers : ℤ)) = listMax [(ride.num_passengers : ℤ), 0]
    rw [listMax]
    show (ride.num_passengers : ℤ) = max (ride.num_passengers : ℤ) 0
    rw [max_eq_left h0]
  · intro vid stops lp t route h
    rw [extract_route_assemble] at h
    by_cases hemp : stops.isEmpty
    · rw [if_pos hemp] at h
      exact absurd h (by simp)
    · rw [if_neg hemp] at h
      have := Option.some.inj h
      rw [← this]

/-- C6: check_time_overlap returns true iff the later earliest bound is
strictly below the earlier latest bound, and in particular two windows
that merely touch at an endpoint do not overlap. -/
theorem check_time_overlap_strict (tw1 tw2 : TimeWindow) :
    (check_time_overlap tw1 tw2 = true ↔
      max tw1.earliest tw2.earliest < min tw1.latest tw2.latest) ∧
    (tw1.latest = tw2.earliest → check_time_overlap tw1 tw2 = false) := by
  constructor
  · exact decide_eq_true_iff
  · intro h
    have : ¬ max tw1.earliest tw2.earliest < min tw1.latest tw2.latest := by
      have h1 : min tw1.latest tw2.latest ≤ tw1.latest := min_le_left _ _
      have h2 : tw2.earliest ≤ max tw1.earliest tw2.earliest := le_max_right _ _
      omega
    simpa [check_time_overlap] using this

/-- C6 witness: concrete touching windows [0,10] and [10,20] do not
overlap, while [0,10] and [5,20] do. -/
theorem check_time_overlap_strict_witness :
    check_time_overlap ⟨0, 5, 10⟩ ⟨10, 15, 20⟩ = false ∧
    check_time_overlap ⟨0, 5, 10⟩ ⟨5, 15, 20⟩ = true := by
  constructor
  · exact (check_time_overlap_strict ⟨0, 5, 10⟩ ⟨10, 15, 20⟩).2 rfl
  · exact (check_time_overlap_strict ⟨0, 5, 10⟩ ⟨5, 15, 20⟩).1.mpr (by decide)

/-- C5 counterexample: with the default engine, calculate_base_price 10 25
returns 25.5, not the 50 + 10·12 + 25·2 = 220 that the claimed default
constants baseFare=50, perKmRate=12, perMinuteRate=2 would give. -/
theorem calculate_base_price_default_cex :
    defaultPricingEngine.calculate_base_price 10 25 = some (51/2) ∧
    (51/2 : ℚ) ≠ 50 + 10 * 12 + 25 * 2 := by
  constructor
  · norm_num [PricingEngine.calculate_base_price, defaultPricingEngine,
      BASE_FARE, PER_KM_RATE, PER_MINUTE_RATE, round2, roundHalfEven]
  · norm_num

/-- C5 amended: with the default configuration the base price is the
rounded affine formula baseFare + d·perKmRate + m·perMinuteRate, with
the actual default constants baseFare = 3.00, perKmRate = 1.50,
perMinuteRate = 0.30 (the spec values 50/12/2 are only the INR figures
mentioned in the source comments). -/
theorem calculate_base_price_default (d m : ℚ) (hd : 0 ≤ d) (hm : 0 ≤ m) :
    defaultPricingEngine.calculate_base_price d m =
      some (round2 (BASE_FARE + d * PER_KM_RATE + m * PER_MINUTE_RATE)) ∧
    BASE_FARE = 3 ∧ PER_KM_RATE = 3/2 ∧ PER_MINUTE_RATE = 3/10 := by
  refine ⟨?_, rfl, rfl, rfl⟩
  have : ¬ (d < 0 ∨ m < 0) := by
    push_neg
    exact ⟨hd, hm⟩
  simp [PricingEngine.calculate_base_price, defaultPricingEngine, this]

/-- C5 witness: the amended statement evaluated at d = 10, m = 25. -/
theorem calculate_base_price_default_witness :
    defaultPricingEngine.calculate_base_price 10 25 =
      some (round2 (BASE_FARE + 10 * PER_KM_RATE + 25 * PER_MINUTE_RATE)) :=
  (calculate_base_price_default 10 25 (by norm_num) (by norm_num)).1

/-- C8: calculate_base_price raises exactly on a negative distance or
duration, and calculate_pooled_price raises exactly on a negative base
price or a rider count below 1; on all other inputs both return a value. -/
theorem pricing_engine_raises_iff (e : PricingEngine) (d m b : ℚ) (n : ℤ) :
    ((e.calculate_base_price d m).isSome = true ↔ 0 ≤ d ∧ 0 ≤ m) ∧
    ((e.calculate_pooled_price b n).isSome = true ↔ 0 ≤ b ∧ 1 ≤ n) := by
  constructor
  · have hbase : (e.calculate_base_price d m).isSome = true ↔ ¬ (d < 0 ∨ m < 0) := by
      by_cases h : d < 0 ∨ m < 0 <;> simp [PricingEngine.calculate_base_price, h]
    rw [hbase]
    push_neg
    simp [not_lt]
  · have hpool : (e.calculate_pooled_price b n).isSome = true ↔ ¬ b < 0 ∧ ¬ n < 1 := by
      by_cases hb : b < 0
      · simp [PricingEngine.calculate_pooled_price, hb]
      · by_cases hn : n < 1 <;> simp [PricingEngine.calculate_pooled_price, hb, hn]
    rw [hpool]
    simp [not_lt]

/-- C7 counterexample: a cluster of 4 rides yields efficiency 0.45, not
the 50% saturation the claim asserts for every cluster of 4 or more. -/
theorem compute_pooling_efficiency_cex :
    compute_pooling_efficiency 4 10 = 9/20 ∧ (9/20 : ℚ) ≠ 1/2 := by
  constructor
  · norm_num [compute_pooling_efficiency]
  · norm_num

/-- C7 amended: for clusterSize ≥ 1 the efficiency is
min(0.5, (clusterSize−1)·0.15) (for clusterSize ≤ 1 the code returns 0
before evaluating the formula); it is zero for singletons, saturates at
50% only from 5 rides on, and a 4-ride cluster yields 0.45. -/
theorem compute_pooling_efficiency_amended :
    (∀ cs t : ℤ, 1 ≤ cs →
      compute_pooling_efficiency cs t = min (1/2) (((cs : ℚ) - 1) * (3/20))) ∧
    (∀ t : ℤ, compute_pooling_efficiency 1 t = 0) ∧
    (∀ cs t : ℤ, 5 ≤ cs → compute_pooling_efficiency cs t = 1/2) ∧
    (∀ t : ℤ, compute_pooling_efficiency 4 t = 9/20) := by
  have hgen : ∀ cs t : ℤ, 1 ≤ cs →
      compute_pooling_efficiency cs t = min (1/2) (((cs : ℚ) - 1) * (3/20)) := by
    intro cs t hcs
    by_cases h : cs ≤ 1
    · have : cs = 1 := le_antisymm h hcs
      subst this
      norm_num [compute_pooling_efficiency]
    · simp [compute_pooling_efficiency, h]
  refine ⟨hgen, ?_, ?_, ?_⟩
  · intro t
    norm_num [compute_pooling_efficiency]
  · intro cs t hcs
    rw [hgen cs t (by omega)]
    have hc : (5 : ℚ) ≤ (cs : ℚ) := by exact_mod_cast hcs
    have : (1/2 : ℚ) ≤ ((cs : ℚ) - 1) * (3/20) := by nlinarith
    exact min_eq_left this
  · intro t
    norm_num [compute_pooling_efficiency]

/-- C7 witness: the amended statement evaluated at cluster sizes 1, 4, 5. -/
theorem compute_pooling_efficiency_amended_witness :
    compute_pooling_efficiency 1 9 = min (1/2) (((1 : ℚ) - 1) * (3/20)) ∧
    compute_pooling_efficiency 5 9 = 1/2 ∧
    compute_pooling_efficiency 4 9 = 9/20 :=
  ⟨compute_pooling_efficiency_amended.1 1 9 (by norm_num),
   compute_pooling_efficiency_amended.2.2.1 5 9 (by norm_num),
   compute_pooling_efficiency_amended.2.2.2 9⟩

/-- C10 counterexample: at original price 0 and discounted price −5 the
discounted price is negative, yet the function returns 0.0 instead of
raising, refuting raises-iff-discounted-negative. -/
theorem calculate_discount_percentage_cex :
    defaultPricingEngine.calculate_discount_percentage 0 (-5) = some 0 ∧
    ((-5 : ℚ) < 0) := by
  constructor
  · norm_num [PricingEngine.calculate_discount_percentage]
  · norm_num

/-- C10 amended: the discount-percentage computation raises iff the
original price is positive AND the discounted price is negative (the
non-positive-original early return precedes the negative check); it
returns 0.0 whenever the original price is not positive, and whenever it
does not raise and the discounted price exceeds the original. -/
theorem calculate_discount_percentage_amended (e : PricingEngine) (o d : ℚ) :
    ((e.calculate_discount_percentage o d).isSome = false ↔ 0 < o ∧ d < 0) ∧
    (o ≤ 0 → e.calculate_discount_percentage o d = some 0) ∧
    (0 < o → 0 ≤ d → o < d → e.calculate_discount_percentage o d = some 0) := by
  refine ⟨?_, ?_, ?_⟩
  · have hiff : (e.calculate_discount_percentage o d).isSome = false ↔ ¬ o ≤ 0 ∧ d < 0 := by
      by_cases ho : o ≤ 0
      · simp [PricingEngine.calculate_discount_percentage, ho]
      · by_cases hd : d < 0
        · simp [PricingEngine.calculate_discount_percentage, ho, hd]
        · by_cases hod : o < d <;>
            simp [PricingEngine.calculate_discount_percentage, ho, hd, hod]
    rw [hiff]
    simp [not_le]
  · intro ho
    simp [PricingEngine.calculate_discount_percentage, ho]
  · intro ho hd hod
    simp [PricingEngine.calculate_discount_percentage, not_le.mpr ho,
      not_lt.mpr hd, hod]

/-- C10 witness: the amended statement evaluated at concrete inputs
covering the raise case (2, −1), the non-positive original case (−3, 7)
and the price-increase case (2, 5). -/
theorem calculate_discount_percentage_amended_witness :
    ((defaultPricingEngine.calculate_discount_percentage 2 (-1)).isSome = false) ∧
    defaultPricingEngine.calculate_discount_percentage (-3) 7 = some 0 ∧
    defaultPricingEngine.calculate_discount_percentage 2 5 = some 0 :=
  ⟨(calculate_discount_percentage_amended defaultPricingEngine 2 (-1)).1.mpr
      ⟨by norm_num, by norm_num⟩,
   (calculate_discount_percentage_amended defaultPricingEngine (-3) 7).2.1
      (by norm_num),
   (calculate_discount_percentage_amended defaultPricingEngine 2 5).2.2
      (by norm_num) (by norm_num) (by norm_num)⟩

/-- C4: on a route serving two distinct rides the code computes
num_riders = len(set of 2 ride ids) // 2 = 1 — the // 2 meant to cancel
the pickup/dropoff duplication that set() has already removed — so the
gross revenue is the undiscounted base price 25.5 for one rider, while
the claimed formula pooledPricePerRider(25.5, 2) × 2 gives 40.8. -/
theorem calculate_driver_earnings_bug :
    ((twoRideRoute.stops.map Stop.ride_id).dedup).length = 2 ∧
    (defaultPricingEngine.calculate_driver_earnings twoRideRoute).map
      DriverEarnings.gross_revenue = some (51/2) ∧
    defaultPricingEngine.calculate_pooled_price (51/2) 2 = some (102/5) ∧
    (51/2 : ℚ) ≠ (102/5) * 2 := by
  refine ⟨by decide, ?_, ?_, by norm_num⟩
  · have hbase : defaultPricingEngine.calculate_base_price
        twoRideRoute.total_distance_km (twoRideRoute.total_duration_minutes : ℚ) =
        some (51/2) := by
      norm_num [PricingEngine.calculate_base_price, defaultPricingEngine,
        twoRideRoute, BASE_FARE, PER_KM_RATE, PER_MINUTE_RATE, round2, roundHalfEven]
    have hpool : defaultPricingEngine.calculate_pooled_price (51/2)
        (((1 : ℕ) : ℤ)) = some (51/2) := by
      norm_num [PricingEngine.calculate_pooled_price, POOL_DISCOUNTS,
        round2, roundHalfEven]
    have hnum : (if ((twoRideRoute.stops.map Stop.ride_id).dedup).length / 2 = 0
        then max 1 (twoRideRoute.stops.length / 2)
        else ((twoRideRoute.stops.map Stop.ride_id).dedup).length / 2) = 1 := by
      decide
    rw [PricingEngine.calculate_driver_earnings, hnum, hbase]
    simp only []
    rw [hpool]
    norm_num [defaultPricingEngine, PLATFORM_FEE_RATE, twoRideRoute,
      round2, roundHalfEven]
  · norm_num [PricingEngine.calculate_pooled_price, POOL_DISCOUNTS,
      round2, roundHalfEven]

/-- Concrete evaluation of the grouping on a single incompatible ride:
it forms exactly one singleton cluster. -/
theorem eval_singleton_groups :
    find_compatible_groups (fun _ _ => false) 4 [rideA] 4 = [[rideA]] := by
  simp [find_compatible_groups, sortedRides, List.mergeSort, outerLoop, scanCandidates]

/-- C1 witness: the partition statement instantiated on the single ride
rideA with an always-false compatibility test — the one cluster is the
singleton [rideA] and the flattened output is a permutation of the
input. -/
theorem find_compatible_groups_partition_witness :
    ((find_compatible_groups (fun _ _ => false) 4 [rideA] 4).flatten).Perm [rideA] ∧
    [([rideA].get ⟨0, Nat.one_pos⟩)] ∈ find_compatible_groups (fun _ _ => false) 4 [rideA] 4 :=
  ⟨(find_compatible_groups_partition (fun _ _ => false) 4 4 [rideA]).1,
   (find_compatible_groups_partition (fun _ _ => false) 4 4 [rideA]).2 0 Nat.one_pos
     (fun j hj hjk => absurd (Nat.lt_one_iff.mp hj) hjk)⟩

/-- C2 witness: the capacity invariant instantiated on the concrete
pipeline run over the single valid ride rideA, at prefix length 1. -/
theorem capacity_invariant_witness :
    0 ≤ runningLoad ((solve_cluster (fun _ _ => 0) [rideA]).stops.take 1) ∧
    runningLoad ((solve_cluster (fun _ _ => 0) [rideA]).stops.take 1) ≤ 4 :=
  capacity_invariant (fun _ _ => false) (fun _ _ => 0) [rideA]
    (fun r hr => by
      rw [List.mem_singleton.mp hr]
      exact ⟨by decide, by decide⟩)
    [rideA]
    (by
      rw [pool_rides, eval_singleton_groups]
      exact List.mem_singleton.mpr rfl)
    1

/-- C9 witness: the capacity_used = max(load_profile) statement
instantiated on each constructor at concrete inputs. -/
theorem capacity_used_eq_max_load_witness :
    ((solve_cluster (fun _ _ => 0) [rideA, rideB]).capacity_used =
      listMax (solve_cluster (fun _ _ => 0) [rideA, rideB]).load_profile) ∧
    ((create_solo_route (fun _ _ => 0) 0 rideA).capacity_used =
      listMax (create_solo_route (fun _ _ => 0) 0 rideA).load_profile) ∧
    ((create_solo_route (fun _ _ => 0) 7 rideB).capacity_used =
      listMax (create_solo_route (fun _ _ => 0) 7 rideB).load_profile) ∧
    ∃ route : VehicleRoute,
      extract_route_assemble 3 [Stop.mk 1 ⟨0, 0⟩ StopType.pickup ⟨0, 5, 10⟩ 2 0]
        [2] 9 = some route ∧
      route.capacity_used = listMax route.load_profile := by
  refine ⟨(capacity_used_eq_max_load (fun _ _ => 0)).1 [rideA, rideB], ?_, ?_, ?_⟩
  · apply (capacity_used_eq_max_load (fun _ _ => 0)).2.1 [rideA]
    simp [solve_greedy, create_solo_route]
  · exact (capacity_used_eq_max_load (fun _ _ => 0)).2.2.1 7 rideB
  · refine ⟨VehicleRoute.mk 3 [Stop.mk 1 ⟨0, 0⟩ StopType.pickup ⟨0, 5, 10⟩ 2 0]
      (round2 (((9 : ℤ) : ℚ) / 60 * 30)) 9 (listMax [2]) 0 [2], ?_, ?_⟩
    · rw [extract_route_assemble, if_neg (by decide)]
    · exact (capacity_used_eq_max_load (fun _ _ => 0)).2.2.2 3
        [Stop.mk 1 ⟨0, 0⟩ StopType.pickup ⟨0, 5, 10⟩ 2 0] [2] 9 _
        (by rw [extract_route_assemble, if_neg (by decide)])

end RideOpt
